import Mathlib

/-!
Verification of the template compiler in `src/lib.rs` (an early version of the
`ructe` template engine).  The parser is written with `nom` 1.x combinators
over byte slices; we embed the byte slices as `List Nat` and the `nom`
`IResult` as a three-way result.  Every parser definition below mirrors the
corresponding `named!` item of `src/lib.rs` together with the `nom` 1.x
semantics of the combinators it uses (`tag!`, `is_not!`, `chain!`, `alt!`,
`many0!`, `opt!`, `separated_list!`, `char!`, `none_of!`, `value!`,
`delimited!`, and the byte scanners `alpha`, `alphanumeric`, `multispace`,
`eof`).
-/

/-- A byte string: the embedding of a Rust `&[u8]` slice. -/
abbrev Input := List Nat

/-- `nom` 1.x `IResult`: `Done(remaining, value)`, a parse `Error`, or
`Incomplete` (more input needed).  Error positions/kinds and needed sizes are
not tracked: no caller in `src/lib.rs` inspects them beyond the constructor. -/
inductive IResult (α : Type) where
  | done (rest : Input) (val : α)
  | error
  | incomplete
deriving DecidableEq, Repr

/-- Sequencing, as in `nom`'s `chain!`: errors and incompleteness propagate. -/
def pbind {α β : Type} (p : Input → IResult α) (f : α → Input → IResult β)
    (i : Input) : IResult β :=
  match p i with
  | .done r v => f v r
  | .error => .error
  | .incomplete => .incomplete

/-- Mapping the value of a parse result. -/
def pmap {α β : Type} (p : Input → IResult α) (f : α → β) (i : Input) :
    IResult β :=
  match p i with
  | .done r v => .done r (f v)
  | .error => .error
  | .incomplete => .incomplete

/-- `nom`'s `alt!` for two branches: the second branch is tried only on
`Error`; `Incomplete` is returned at once. -/
def palt {α : Type} (p q : Input → IResult α) (i : Input) : IResult α :=
  match p i with
  | .error => q i
  | r => r

/-- `nom`'s `opt!`: an error becomes `none` without consuming input. -/
def popt {α : Type} (p : Input → IResult α) (i : Input) : IResult (Option α) :=
  match p i with
  | .done r v => .done r (some v)
  | .error => .done i none
  | .incomplete => .incomplete

/-- `nom` 1.x `tag!`: compares the available prefix against the tag; a
mismatch is an error, a matching but short input is incomplete. -/
def ptag (t : Input) (i : Input) : IResult Input :=
  if i.take (min i.length t.length) = t.take (min i.length t.length) then
    if min i.length t.length < t.length then .incomplete
    else .done (i.drop t.length) t
  else .error

/-- `nom` 1.x `char!`: a single given byte; incomplete on empty input. -/
def pchar (c : Nat) (i : Input) : IResult Nat :=
  match i with
  | [] => .incomplete
  | b :: r => if b = c then .done r b else .error

/-- `nom` 1.x `none_of!`: one byte not in the given set. -/
def pnoneOf (stop : Input) (i : Input) : IResult Nat :=
  match i with
  | [] => .incomplete
  | b :: r => if b ∈ stop then .error else .done r b

/-- `nom` 1.x `eof`: succeeds exactly on empty input. -/
def eof (i : Input) : IResult Unit :=
  if i = [] then .done [] () else .error

/-- The shape shared by `nom` 1.x byte-class scanners (`alpha`,
`alphanumeric`, `multispace`): the maximal prefix of bytes satisfying `f`;
an error when the first byte fails `f`, and `Done` with an empty match on
empty input (the documented `nom` 1.x behaviour of these functions). -/
def spanFilter (f : Nat → Bool) (i : Input) : IResult Input :=
  if i.takeWhile f = [] then
    if i = [] then .done [] [] else .error
  else .done (i.dropWhile f) (i.takeWhile f)

/-- ASCII `a`-`z`, `A`-`Z` (nom's `is_alphabetic`). -/
def isAlphaB (b : Nat) : Bool := (65 ≤ b && b ≤ 90) || (97 ≤ b && b ≤ 122)

/-- ASCII `0`-`9`. -/
def isDigitB (b : Nat) : Bool := 48 ≤ b && b ≤ 57

/-- ASCII alphanumeric (nom's `is_alphanumeric`). -/
def isAlnumB (b : Nat) : Bool := isAlphaB b || isDigitB b

/-- Space, tab, carriage return, line feed (the bytes accepted by nom's
`multispace`). -/
def isSpaceB (b : Nat) : Bool := b = 32 || b = 9 || b = 13 || b = 10

/-- nom's `alpha`. -/
def alpha : Input → IResult Input := spanFilter isAlphaB

/-- nom's `alphanumeric`. -/
def alphanumeric : Input → IResult Input := spanFilter isAlnumB

/-- nom's `multispace`. -/
def multispace : Input → IResult Input := spanFilter isSpaceB

/-- `nom` 1.x `is_not!`: the maximal nonempty prefix of bytes not in `stop`;
an error when that prefix is empty (including on empty input). -/
def isNot (stop : Input) (i : Input) : IResult Input :=
  if i.takeWhile (fun b => !decide (b ∈ stop)) = [] then .error
  else .done (i.dropWhile (fun b => !decide (b ∈ stop)))
            (i.takeWhile (fun b => !decide (b ∈ stop)))

/-- `nom` 1.x `many0!` with explicit fuel.  Each round stops on error,
propagates incompleteness, and also stops when the inner parser consumed
nothing.  Since every successful round consumes at least one byte, fuel
`input.length + 1` is always sufficient; fuel 0 is unreachable from
`many0`. -/
def many0F {α : Type} (p : Input → IResult α) : Nat → Input → IResult (List α)
  | 0, _ => .incomplete
  | fuel + 1, i =>
    if i = [] then .done i []
    else
      match p i with
      | .error => .done i []
      | .incomplete => .incomplete
      | .done r o =>
        if r.length = i.length then .done i []
        else
          match many0F p fuel r with
          | .done r2 os => .done r2 (o :: os)
          | .error => .error
          | .incomplete => .incomplete

/-- `nom` 1.x `many0!`. -/
def many0 {α : Type} (p : Input → IResult α) (i : Input) : IResult (List α) :=
  many0F p (i.length + 1) i

/-- The loop of `nom` 1.x `separated_list!`: repeatedly parse the separator
then an element, committing the input position only when both succeed and
consume. -/
def sepLoopF {α β : Type} (sep : Input → IResult β) (p : Input → IResult α) :
    Nat → Input → List α → Input × List α
  | 0, i, acc => (i, acc)
  | fuel + 1, i, acc =>
    match sep i with
    | .done r1 _ =>
      if r1.length = i.length then (i, acc)
      else
        match p r1 with
        | .done r2 o =>
          if r2.length = r1.length then (i, acc)
          else sepLoopF sep p fuel r2 (acc ++ [o])
        | .error => (i, acc)
        | .incomplete => (i, acc)
    | .error => (i, acc)
    | .incomplete => (i, acc)

/-- `nom` 1.x `separated_list!`: zero or more elements.  A failing first
element yields the empty list without consuming input; a first element that
consumes nothing is an error. -/
def sepList {α β : Type} (sep : Input → IResult β) (p : Input → IResult α)
    (i : Input) : IResult (List α) :=
  match p i with
  | .error => .done i []
  | .incomplete => .incomplete
  | .done r o =>
    if r.length = i.length then .error
    else
      let res := sepLoopF sep p (r.length + 1) r [o]
      .done res.1 res.2

/-- ASCII bytes of a string literal. -/
def bs (s : String) : Input := s.data.map Char.toNat

/-- One body node of a parsed template (`enum TemplateExpression`). -/
inductive TemplateExpression where
  | Comment
  | Text (text : Input)
  | Expression (expr : Input)
deriving DecidableEq, Repr

/-- A parsed template (`struct Template`). -/
structure Template where
  preamble : List Input
  args : List Input
  body : List TemplateExpression
deriving DecidableEq, Repr

/-- `named!(comment ...)`, inner pieces: a nonempty run without `*`, or a `*`
followed by a byte other than `@`. -/
def commentPiece : Input → IResult Unit :=
  palt (pmap (isNot [42]) (fun _ => ()))
       (pbind (ptag [42]) (fun _ => pmap (pnoneOf [64]) (fun _ => ())))

/-- `named!(comment ...)`: `@*` ... `*@`, `value!((), delimited!(...))`. -/
def comment : Input → IResult Unit :=
  pbind (ptag [64, 42]) (fun _ =>
    pbind (many0 commentPiece) (fun _ =>
      pmap (ptag [42, 64]) (fun _ => ())))

/-- `named!(spacelike ...)`: any number of comments or whitespace runs. -/
def spacelike : Input → IResult Unit :=
  pmap (many0 (palt comment (pmap multispace (fun _ => ())))) (fun _ => ())

/-- `named!(rust_name ...)`: `alpha` then an optional `alphanumeric` run,
concatenated. -/
def rust_name : Input → IResult Input :=
  pbind alpha (fun first =>
    pmap (popt alphanumeric) (fun rest => first ++ rest.getD []))

/-- `named!(expression ...)` with explicit fuel for the right recursion:
either a name, a dot and a (recursive) expression — joined with a dot — or a
bare name. -/
def expressionF : Nat → Input → IResult Input
  | 0, _ => .incomplete
  | fuel + 1, i =>
    palt
      (pbind rust_name (fun pre =>
        pbind (pchar 46) (fun _ =>
          pmap (expressionF fuel) (fun post => pre ++ 46 :: post))))
      rust_name i

/-- `named!(expression ...)`: each recursion step consumes at least two
bytes, so fuel `input.length + 1` always suffices. -/
def expression (i : Input) : IResult Input :=
  expressionF (i.length + 1) i

/-- `named!(template_expression ...)`: a comment, a nonempty `@`-free text
run, or `@` followed by an expression — tried in that order. -/
def template_expression : Input → IResult TemplateExpression :=
  palt (pmap comment (fun _ => TemplateExpression.Comment))
    (palt (pmap (isNot [64]) (fun t => TemplateExpression.Text t))
      (pbind (ptag [64]) (fun _ =>
        pmap expression (fun e => TemplateExpression.Expression e))))

/-- One preamble item inside `named!(template ...)`: `@`, raw code free of
`;`/`(`/`)`, `;`, then `spacelike`. -/
def preambleItem : Input → IResult Input :=
  pbind (ptag [64]) (fun _ =>
    pbind (isNot [59, 40, 41]) (fun code =>
      pbind (ptag [59]) (fun _ =>
        pmap spacelike (fun _ => code))))

/-- `named!(formal_argument ...)`: raw text free of `,` and `)`. -/
def formal_argument : Input → IResult Input :=
  isNot [44, 41]

/-- `named!(template ...)`: spacelike, preamble items, `@(`, the argument
list separated by the literal `, `, `)`, spacelike, the body, end of
input. -/
def template : Input → IResult Template :=
  pbind spacelike (fun _ =>
    pbind (many0 preambleItem) (fun pre =>
      pbind (ptag [64, 40]) (fun _ =>
        pbind (sepList (ptag [44, 32]) formal_argument) (fun args =>
          pbind (ptag [41]) (fun _ =>
            pbind spacelike (fun _ =>
              pbind (many0 template_expression) (fun body =>
                pmap eof (fun _ =>
                  { preamble := pre, args := args, body := body }))))))))

/-- `TemplateExpression::code`: the generated statement for one body node,
as the byte string produced by the `format!` calls in `src/lib.rs`. -/
def TemplateExpression.code : TemplateExpression → Input
  | .Comment => []
  | .Text t => bs ("try!(write!(out, \x22") ++ t ++ bs ("\x22));\n")
  | .Expression e => bs ("try!(") ++ e ++ bs (".to_html(out));\n")

/-- `Template::write_rust`: the full generated render-function source for one
template, following the `write!` format string in `src/lib.rs` (preamble
lines, `pub fn` signature with the output sink and the verbatim argument
texts, the body statements, `Ok(())`). -/
def Template.write_rust (t : Template) (name : Input) : Input :=
  (t.preamble.map (fun l => l ++ bs (";\n"))).flatten ++
  bs ("\npub fn ") ++ name ++ bs ("(out: &mut Write") ++
  (t.args.map (fun a => bs (", ") ++ a)).flatten ++
  bs (") -> io::Result<()> \x7b\n") ++
  (t.body.map TemplateExpression.code).flatten ++
  bs ("Ok(())\n\x7d")

/-- Modelled from the spec: the semantics of one generated body statement
(spec §4.2), since the generated program's host-language semantics are not
part of the sources here.  A `Comment` writes nothing, a `Text` node writes
its literal bytes, an `Expression` writes the escaped rendering of the value
its path denotes; `env` maps an expression path to that escaped rendering. -/
def renderNode (env : Input → Input) : TemplateExpression → Input
  | .Comment => []
  | .Text t => t
  | .Expression e => env e

/-- Modelled from the spec: invoking the generated render procedure writes
each body node's fragment in order (spec §4.2). -/
def rendered (t : Template) (env : Input → Input) : Input :=
  (t.body.map (renderNode env)).flatten

/-- Modelled from the spec: the escaping rule of the runtime-support block
(spec §4.3, `template_utils.rs`, which is included by `src/lib.rs` but absent
from the sources here): scan the textual representation byte by byte and
replace `<` (byte 60) by `&lt;`; all other bytes pass through unchanged. -/
def escapeHtml : Input → Input
  | [] => []
  | b :: r => (if b = 60 then bs ("&lt;") else [b]) ++ escapeHtml r

/-- Modelled from the spec: the escaped-rendering capability (`to_html`) for
a plain textual value is `escapeHtml` of its bytes. -/
def toHtml (v : Input) : Input := escapeHtml v

/-- Modelled from the spec: the raw/pre-escaped wrapper type (`Html`). -/
structure Html where
  inner : Input
deriving DecidableEq, Repr

/-- Modelled from the spec: the wrapper's escaped-rendering capability writes
the inner bytes unchanged. -/
def Html.to_html (h : Html) : Input := h.inner

/-- The external collaborators of `compile_templates`, as success/failure
oracles: whether creating the output file succeeds, whether writes to it
succeed, and the readable content of each template file by name (`none`
models an unreadable or missing file). -/
structure FS where
  createOk : Bool
  writeOk : Bool
  read : Input → Option Input

/-- One chunk written to the aggregate output `templates.rs`: the fixed
module header, one generated render function, or the runtime-support block
(the final `write!` including the closing brace). -/
inductive Chunk where
  | header
  | renderDef (text : Input)
  | support
deriving DecidableEq, Repr

/-- Outcome of a `compile_templates` run: the `io::Result` as a Boolean, the
chunks written to the output file, and the `cargo:warning` lines (one entry,
holding the template name, per failed parse). -/
structure RunResult where
  ok : Bool
  out : List Chunk
  warnings : List Input
deriving DecidableEq, Repr

/-- The per-name loop of `compile_templates`: read the file (aborting the
batch on failure), then either append the generated render function (parse
`Done`), or log a warning (parse `Error` or `Incomplete`) and continue. -/
def processNames (fs : FS) : List Input → List Chunk → List Input → RunResult
  | [], out, warns => { ok := true, out := out ++ [Chunk.support], warnings := warns }
  | n :: rest, out, warns =>
    match fs.read n with
    | none => { ok := false, out := out, warnings := warns }
    | some buf =>
      match template buf with
      | .done _ t => processNames fs rest (out ++ [Chunk.renderDef (t.write_rust n)]) warns
      | .error => processNames fs rest out (warns ++ [n])
      | .incomplete => processNames fs rest out (warns ++ [n])

/-- `pub fn compile_templates`: create the output file, write the module
header, process each template name in order, then append the runtime-support
block exactly once. -/
def compile_templates (fs : FS) (names : List Input) : RunResult :=
  if fs.createOk then
    if fs.writeOk then processNames fs names [Chunk.header] []
    else { ok := false, out := [], warnings := [] }
  else { ok := false, out := [], warnings := [] }

/-- Whether reading and parsing a template succeeds in the given filesystem. -/
def parsesOk (fs : FS) (n : Input) : Bool :=
  match fs.read n with
  | some buf =>
    match template buf with
    | .done _ _ => true
    | _ => false
  | none => false

/-- Number of render-function definitions among the output chunks. -/
def countRender (out : List Chunk) : Nat :=
  (out.filter (fun c => match c with | .renderDef _ => true | _ => false)).length

/-- Number of runtime-support blocks among the output chunks. -/
def countSupport (out : List Chunk) : Nat :=
  (out.filter (fun c => match c with | .support => true | _ => false)).length

/-- The render-function chunks a successful batch writes: one per template
name whose file is readable and parses. -/
def renderChunks (fs : FS) (names : List Input) : List Chunk :=
  names.filterMap (fun n =>
    match fs.read n with
    | some buf =>
      match template buf with
      | .done _ t => some (Chunk.renderDef (t.write_rust n))
      | _ => none
    | none => none)

/-- The template names whose parse fails (and which are warned about). -/
def failedNames (fs : FS) (names : List Input) : List Input :=
  names.filter (fun n => !parsesOk fs n)

/-- A well-formed identifier segment: nonempty, alphabetic first byte,
alphanumeric rest. -/
def goodSeg : Input → Bool
  | [] => false
  | c :: cs => isAlphaB c && cs.all isAlnumB

/-- A well-formed expression path: identifier segments joined by single `.`
(byte 46) separators. -/
inductive GoodPath : Input → Prop
  | single (s : Input) : goodSeg s = true → GoodPath s
  | dotted (s t : Input) : goodSeg s = true → GoodPath t → GoodPath (s ++ 46 :: t)

/-- A concrete filesystem oracle used to exercise `compile_templates`: name
`a` holds a parseable template, name `b` holds one that fails to parse. -/
def fs0 : FS where
  createOk := true
  writeOk := true
  read := fun n =>
    if n = bs ("a") then some (bs ("@()hello"))
    else if n = bs ("b") then some (bs ("no args here"))
    else none

/-- The template names fed to `compile_templates` in the concrete run. -/
def names0 : List Input := [bs ("a"), bs ("b")]

/-! The embedding reproduces the unit tests of `src/lib.rs` (`test_comment`
through `test_comment6`), pinning the model to the source's own test suite. -/

example : comment (bs ("@* a simple comment *@")) = .done [] () := by decide
example : comment (bs (" @* comment *@")) = .error := by decide
example : comment (bs ("@* comment *@ & stuff")) = .done (bs (" & stuff")) () := by decide
example : comment (bs ("@* comment *@ and @* another *@")) = .done (bs (" and @* another *@")) () := by decide
example : comment (bs ("@* comment containing * and @ *@")) = .done [] () := by decide
example : expression (bs ("foo<x")) = .done (bs ("<x")) (bs ("foo")) := by decide
example : expression (bs ("foo!!")) = .done (bs ("!!")) (bs ("foo")) := by decide
example : expression (bs ("foo. ")) = .done (bs (". ")) (bs ("foo")) := by decide

theorem pbind_eq {α β : Type} {p : Input → IResult α} {f : α → Input → IResult β}
    {i r : Input} {v : α} (h : p i = .done r v) : pbind p f i = f v r := by
  unfold pbind
  rw [h]

theorem pbind_eq_error {α β : Type} {p : Input → IResult α}
    {f : α → Input → IResult β} {i : Input} (h : p i = .error) :
    pbind p f i = .error := by
  unfold pbind
  rw [h]

theorem pmap_eq {α β : Type} {p : Input → IResult α} {f : α → β}
    {i r : Input} {v : α} (h : p i = .done r v) : pmap p f i = .done r (f v) := by
  unfold pmap
  rw [h]

theorem pmap_eq_error {α β : Type} {p : Input → IResult α} {f : α → β}
    {i : Input} (h : p i = .error) : pmap p f i = .error := by
  unfold pmap
  rw [h]

theorem spanFilter_cons_neg {f : Nat → Bool} {b : Nat} (l : Input)
    (h : f b = false) : spanFilter f (b :: l) = .error := by
  unfold spanFilter
  simp [List.takeWhile_cons, h]

theorem spanFilter_cons_pos {f : Nat → Bool} {b : Nat} (l : Input)
    (h : f b = true) :
    spanFilter f (b :: l) = .done (l.dropWhile f) (b :: l.takeWhile f) := by
  unfold spanFilter
  simp [List.takeWhile_cons, List.dropWhile_cons, h]

theorem spanFilter_all {f : Nat → Bool} {d : Input} (h : ∀ b ∈ d, f b = true) :
    spanFilter f d = .done [] d := by
  unfold spanFilter
  have hd : d.dropWhile f = [] := List.dropWhile_eq_nil_iff.mpr h
  have ht : d.takeWhile f = d := by
    have hh := List.takeWhile_append_dropWhile f d
    rw [hd, List.append_nil] at hh
    exact hh
  rw [ht, hd]
  rcases Decidable.em (d = []) with he | he <;> simp [he]

theorem spanFilter_done_nil {f : Nat → Bool} {d va : Input}
    (h : spanFilter f d = .done [] va) : ∀ b ∈ d, f b = true := by
  unfold spanFilter at h
  by_cases hp : d.takeWhile f = []
  · by_cases hd : d = []
    · subst hd
      intro b hb
      cases hb
    · simp [hp, hd] at h
  · simp [hp] at h
    exact h.1

theorem spanFilter_ne_incomplete {f : Nat → Bool} {d : Input} :
    spanFilter f d ≠ .incomplete := by
  unfold spanFilter
  by_cases hp : d.takeWhile f = [] <;> by_cases hd : d = [] <;> simp [hp, hd]

theorem isNot_cons_mem {stop : Input} {b : Nat} (l : Input) (h : b ∈ stop) :
    isNot stop (b :: l) = .error := by
  unfold isNot
  simp [List.takeWhile_cons, h]

theorem isNot_all {stop : Input} {i : Input} (hne : i ≠ [])
    (h : ∀ b ∈ i, b ∉ stop) : isNot stop i = .done [] i := by
  unfold isNot
  have hd : i.dropWhile (fun b => !decide (b ∈ stop)) = [] := by
    rw [List.dropWhile_eq_nil_iff]
    intro b hb
    simp [h b hb]
  have ht : i.takeWhile (fun b => !decide (b ∈ stop)) = i := by
    have hh := List.takeWhile_append_dropWhile (fun b => !decide (b ∈ stop)) i
    rw [hd, List.append_nil] at hh
    exact hh
  rw [ht, hd]
  simp [hne]

theorem ptag_prefix (t i : Input) : ptag t (t ++ i) = .done i t := by
  unfold ptag
  have hm : min (t ++ i).length t.length = t.length := by
    simp
  rw [hm, List.take_left, List.take_length, List.drop_left]
  simp

theorem ptag_cons_ne {a b : Nat} (t i : Input) (h : b ≠ a) :
    ptag (a :: t) (b :: i) = .error := by
  unfold ptag
  have hm : min (b :: i).length (a :: t).length = min i.length t.length + 1 := by
    simp [Nat.succ_min_succ]
  rw [hm]
  simp [List.take_succ_cons, h]

theorem comment_head_ne {b : Nat} (l : Input) (h : b ≠ 64) :
    comment (b :: l) = .error := by
  unfold comment
  exact pbind_eq_error (ptag_cons_ne _ _ h)

theorem template_expression_text {i : Input} (hne : i ≠ [])
    (h64 : ∀ b ∈ i, b ≠ 64) :
    template_expression i = .done [] (.Text i) := by
  obtain ⟨b, l, rfl⟩ := List.exists_cons_of_ne_nil hne
  have hb : b ≠ 64 := h64 b (List.mem_cons_self b l)
  unfold template_expression
  unfold palt
  rw [pmap_eq_error (comment_head_ne l hb)]
  have hnot : isNot [64] (b :: l) = .done [] (b :: l) := by
    apply isNot_all hne
    intro x hx
    simp [h64 x hx]
  rw [pmap_eq hnot]

theorem ptag_cons_cons_ne {a1 a2 b : Nat} (t rest : Input) (h : b ≠ a2) :
    ptag (a1 :: a2 :: t) (a1 :: b :: rest) = .error := by
  unfold ptag
  have hm : min (a1 :: b :: rest).length (a1 :: a2 :: t).length
      = min rest.length t.length + 1 + 1 := by
    simp [Nat.succ_min_succ]
  rw [hm]
  simp [List.take_succ_cons, h]

theorem spacelike_of_errors {b : Nat} (l : Input) (hc : comment (b :: l) = .error)
    (hm : multispace (b :: l) = .error) : spacelike (b :: l) = .done (b :: l) () := by
  unfold spacelike many0
  have hp : palt comment (pmap multispace fun _ => ()) (b :: l) = .error := by
    unfold palt
    rw [hc]
    exact pmap_eq_error hm
  have : many0F (palt comment (pmap multispace fun _ => ())) ((b :: l).length + 1)
      (b :: l) = .done (b :: l) [] := by
    simp only [List.length_cons, many0F, hp]
    simp
  exact pmap_eq this

theorem spacelike_no_ws {b : Nat} (l : Input) (hb : b ≠ 64)
    (hs : isSpaceB b = false) : spacelike (b :: l) = .done (b :: l) () :=
  spacelike_of_errors l (comment_head_ne l hb) (spanFilter_cons_neg l hs)

theorem pbind_done {α β : Type} {p : Input → IResult α} {f : α → Input → IResult β}
    {i r : Input} {v : β} (h : pbind p f i = .done r v) :
    ∃ r1 v1, p i = .done r1 v1 ∧ f v1 r1 = .done r v := by
  unfold pbind at h
  cases hp : p i with
  | done r1 v1 => exact ⟨r1, v1, rfl, by rw [hp] at h; exact h⟩
  | error => rw [hp] at h; cases h
  | incomplete => rw [hp] at h; cases h

theorem pmap_done {α β : Type} {p : Input → IResult α} {f : α → β}
    {i r : Input} {v : β} (h : pmap p f i = .done r v) :
    ∃ v1, p i = .done r v1 ∧ v = f v1 := by
  unfold pmap at h
  cases hp : p i with
  | done r1 v1 =>
    rw [hp] at h
    cases h
    exact ⟨v1, rfl, rfl⟩
  | error => rw [hp] at h; cases h
  | incomplete => rw [hp] at h; cases h

theorem eof_done {i r : Input} {v : Unit} (h : eof i = .done r v) :
    i = [] ∧ r = [] := by
  unfold eof at h
  split at h
  · next hi => cases h; exact ⟨hi, rfl⟩
  · cases h

/-- Claim C3: the template parser is all-or-nothing — a successful parse
consumes the entire input (the grammar ends in `eof`, so the remaining input
of any `Done` result is empty), and an input whose body is followed by bytes
matching no body-node alternative (here a trailing lone `@`) yields a
diagnostic (`incomplete`) and no `Document` at all. -/
theorem ructe_C3 :
    (∀ i r t, template i = .done r t → r = []) ∧
    template (bs ("@()x@")) = .incomplete := by
  constructor
  · intro i r t h
    unfold template at h
    obtain ⟨r1, v1, _, h⟩ := pbind_done h
    obtain ⟨r2, v2, _, h⟩ := pbind_done h
    obtain ⟨r3, v3, _, h⟩ := pbind_done h
    obtain ⟨r4, v4, _, h⟩ := pbind_done h
    obtain ⟨r5, v5, _, h⟩ := pbind_done h
    obtain ⟨r6, v6, _, h⟩ := pbind_done h
    obtain ⟨r7, v7, _, h⟩ := pbind_done h
    obtain ⟨v8, h8, _⟩ := pmap_done h
    exact (eof_done h8).2
  · decide

/-- Witness for C3: the all-or-nothing direction applied to the concrete
successful parse of `@()`. -/
theorem ructe_C3_witness : ([] : Input) = [] :=
  ructe_C3.1 (bs ("@()")) [] { preamble := [], args := [], body := [] } (by decide)

/-- Claim C4: the escaped rendering of `a < b` is exactly `a &lt; b`, and the
raw wrapper applied to `a<b>c</b>` writes those bytes unchanged. -/
theorem ructe_C4 :
    toHtml (bs ("a < b")) = bs ("a &lt; b") ∧
    Html.to_html { inner := bs ("a<b>c</b>") } = bs ("a<b>c</b>") := by
  decide

/-- Claim C5: on `foo.bar.baz##` the expression parser consumes exactly
`foo.bar.baz` leaving `##`; on `x15  ` the identifier parser consumes `x15`
leaving the two spaces. -/
theorem ructe_C5 :
    expression (bs ("foo.bar.baz##")) = .done (bs ("##")) (bs ("foo.bar.baz")) ∧
    rust_name (bs ("x15  ")) = .done (bs ("  ")) (bs ("x15")) := by
  decide

/-- Claim C6: the expression parser rejects `.foo`, ` foo` and `()` with a
parse error. -/
theorem ructe_C6 :
    expression (bs (".foo")) = .error ∧
    expression (bs (" foo")) = .error ∧
    expression (bs ("()")) = .error := by
  decide

/-- Claim C7: on `@*** peculiar comment ***@***` the comment parser consumes
exactly `@*** peculiar comment ***@` and leaves `***` unconsumed. -/
theorem ructe_C7 :
    comment (bs ("@*** peculiar comment ***@***")) = .done (bs ("***")) () := by
  decide

/-- Counterexample to claim C9: the argument list is parsed with
`separated_list!`, which allows the empty list, so `@()` parses successfully
into a template with zero arguments instead of failing. -/
theorem ructe_C9_counterexample :
    template (bs ("@()")) = .done [] { preamble := [], args := [], body := [] } := by
  decide

/-- Claim C9 as amended: the argument list uses the literal comma-space
separator between arguments, but it may be empty — `@()` parses successfully
with zero arguments, and `@(a, b)` parses with the two arguments `a` and
`b`. -/
theorem ructe_C9 :
    template (bs ("@()")) = .done [] { preamble := [], args := [], body := [] } ∧
    template (bs ("@(a, b)")) =
      .done [] { preamble := [], args := [bs ("a"), bs ("b")], body := [] } := by
  decide

/-- Claim C1: a template whose body is pure text with no trigger byte `@`
(and which does not begin with whitespace, which the surrounding `skip` rule
would consume before the body) parses into a single verbatim `Text` node, and
the generated render procedure writes exactly those bytes, unchanged and
unescaped, whatever the expression environment. -/
theorem ructe_C1 (c : Nat) (cs : Input) (h64 : ∀ b ∈ c :: cs, b ≠ 64)
    (hsp : isSpaceB c = false) :
    template (bs ("@()") ++ c :: cs) =
      .done [] { preamble := [], args := [], body := [.Text (c :: cs)] } ∧
    ∀ env, rendered { preamble := [], args := [], body := [.Text (c :: cs)] } env
      = c :: cs := by
  have hc64 : c ≠ 64 := h64 c (List.mem_cons_self c cs)
  constructor
  · have he : bs ("@()") ++ c :: cs = 64 :: 40 :: 41 :: c :: cs := rfl
    rw [he]
    have h1 : spacelike (64 :: 40 :: 41 :: c :: cs) =
        .done (64 :: 40 :: 41 :: c :: cs) () := by
      apply spacelike_of_errors
      · unfold comment
        exact pbind_eq_error (ptag_cons_cons_ne [] (41 :: c :: cs) (by decide))
      · exact spanFilter_cons_neg _ (by decide)
    have h2 : many0 preambleItem (64 :: 40 :: 41 :: c :: cs) =
        .done (64 :: 40 :: 41 :: c :: cs) [] := by
      have hpi : preambleItem (64 :: 40 :: 41 :: c :: cs) = .error := by
        unfold preambleItem
        have ht : ptag [64] (64 :: 40 :: 41 :: c :: cs) =
            .done (40 :: 41 :: c :: cs) [64] := ptag_prefix [64] (40 :: 41 :: c :: cs)
        rw [pbind_eq ht]
        exact pbind_eq_error (isNot_cons_mem _ (by decide))
      unfold many0
      simp only [List.length_cons, many0F, hpi]
      simp
    have h3 : ptag [64, 40] (64 :: 40 :: 41 :: c :: cs) =
        .done (41 :: c :: cs) [64, 40] := ptag_prefix [64, 40] (41 :: c :: cs)
    have h4 : sepList (ptag [44, 32]) formal_argument (41 :: c :: cs) =
        .done (41 :: c :: cs) [] := by
      unfold sepList formal_argument
      rw [isNot_cons_mem _ (by decide)]
    have h5 : ptag [41] (41 :: c :: cs) = .done (c :: cs) [41] :=
      ptag_prefix [41] (c :: cs)
    have h6 : spacelike (c :: cs) = .done (c :: cs) () := spacelike_no_ws cs hc64 hsp
    have h7 : many0 template_expression (c :: cs) = .done [] [.Text (c :: cs)] := by
      have hte : template_expression (c :: cs) = .done [] (.Text (c :: cs)) :=
        template_expression_text (List.cons_ne_nil c cs) h64
      unfold many0
      simp only [List.length_cons, many0F, hte]
      simp [many0F]
    unfold template
    rw [pbind_eq h1, pbind_eq h2, pbind_eq h3, pbind_eq h4, pbind_eq h5,
        pbind_eq h6, pbind_eq h7]
    exact pmap_eq (show eof [] = .done [] () from rfl)
  · intro env
    simp [rendered, renderNode]

/-- Witness for C1 at the concrete body `hello`. -/
theorem ructe_C1_witness :
    template (bs ("@()") ++ 104 :: bs ("ello")) =
      .done [] { preamble := [], args := [], body := [.Text (104 :: bs ("ello"))] } :=
  (ructe_C1 104 (bs ("ello")) (by decide) (by decide)).1

theorem isAlphaB_isAlnumB {b : Nat} (h : isAlphaB b = true) : isAlnumB b = true := by
  simp [isAlnumB, h]

/-- Claim C8: the identifier parser fully accepts exactly the nonempty
strings whose first byte is alphabetic and whose remaining bytes are
alphanumeric, and it rejects (with a parse error, consuming nothing) any
string beginning with an underscore (byte 95) or a digit. -/
theorem ructe_C8 (c : Nat) (cs : Input) :
    ((∃ v, rust_name (c :: cs) = .done [] v) ↔
      (isAlphaB c = true ∧ cs.all isAlnumB = true)) ∧
    ((c = 95 ∨ isDigitB c = true) → rust_name (c :: cs) = .error) := by
  constructor
  · constructor
    · rintro ⟨v, h⟩
      unfold rust_name at h
      obtain ⟨r1, first, ha, h⟩ := pbind_done h
      by_cases hc : isAlphaB c = true
      · refine ⟨hc, ?_⟩
        unfold alpha at ha
        rw [spanFilter_cons_pos cs hc] at ha
        rw [IResult.done.injEq] at ha
        obtain ⟨hr1, _⟩ := ha
        obtain ⟨o, ho, _⟩ := pmap_done h
        have halnum : ∀ b ∈ r1, isAlnumB b = true := by
          unfold popt at ho
          cases han : alphanumeric r1 with
          | done ra va =>
            rw [han] at ho
            rw [IResult.done.injEq] at ho
            obtain ⟨hra, _⟩ := ho
            subst hra
            exact spanFilter_done_nil han
          | error =>
            rw [han] at ho
            rw [IResult.done.injEq] at ho
            obtain ⟨hra, _⟩ := ho
            unfold alphanumeric at han
            unfold spanFilter at han
            by_cases hp : r1.takeWhile isAlnumB = []
            · by_cases hr : r1 = []
              · subst hr
                intro b hb
                cases hb
              · subst hra
                intro b hb
                exact absurd rfl hr
            · simp [hp] at han
          | incomplete =>
            rw [han] at ho
            cases ho
        rw [List.all_eq_true]
        intro b hb
        rw [← List.takeWhile_append_dropWhile (p := isAlphaB) (l := cs)] at hb
        rcases List.mem_append.mp hb with hbt | hbd
        · exact isAlphaB_isAlnumB (List.mem_takeWhile_imp hbt)
        · rw [hr1] at hbd
          exact halnum b hbd
      · unfold alpha at ha
        rw [spanFilter_cons_neg cs (Bool.not_eq_true _ ▸ hc)] at ha
        cases ha
    · rintro ⟨hc, hall⟩
      refine ⟨c :: cs, ?_⟩
      unfold rust_name
      have ha : alpha (c :: cs) =
          .done (cs.dropWhile isAlphaB) (c :: cs.takeWhile isAlphaB) :=
        spanFilter_cons_pos cs hc
      rw [pbind_eq ha]
      have hdal : ∀ b ∈ cs.dropWhile isAlphaB, isAlnumB b = true := by
        intro b hb
        have hmem : b ∈ cs := (List.dropWhile_sublist isAlphaB).subset hb
        exact List.all_eq_true.mp hall b hmem
      have han : alphanumeric (cs.dropWhile isAlphaB) =
          .done [] (cs.dropWhile isAlphaB) := spanFilter_all hdal
      have hopt : popt alphanumeric (cs.dropWhile isAlphaB) =
          .done [] (some (cs.dropWhile isAlphaB)) := by
        unfold popt
        rw [han]
      rw [pmap_eq hopt]
      rw [IResult.done.injEq]
      refine ⟨rfl, ?_⟩
      show (c :: cs.takeWhile isAlphaB) ++ cs.dropWhile isAlphaB = c :: cs
      rw [List.cons_append, List.takeWhile_append_dropWhile]
  · intro hc
    have hna : isAlphaB c = false := by
      rcases hc with hc | hc
      · subst hc
        decide
      · simp only [isDigitB, Bool.and_eq_true, decide_eq_true_eq] at hc
        rw [Bool.eq_false_iff]
        simp only [ne_eq, isAlphaB, Bool.or_eq_true, Bool.and_eq_true,
          decide_eq_true_eq]
        omega
    unfold rust_name
    apply pbind_eq_error
    exact spanFilter_cons_neg cs hna

/-- Witness for C8: `x15` is fully accepted as an identifier. -/
theorem ructe_C8_witness : ∃ v, rust_name (120 :: bs ("15")) = .done [] v :=
  ((ructe_C8 120 (bs ("15"))).1).mpr (by decide)

theorem spanFilter_done_val {f : Nat → Bool} {d ra va : Input}
    (h : spanFilter f d = .done ra va) : ∀ b ∈ va, f b = true := by
  unfold spanFilter at h
  by_cases hp : d.takeWhile f = []
  · rw [if_pos hp] at h
    by_cases hd : d = []
    · rw [if_pos hd] at h
      rw [IResult.done.injEq] at h
      intro b hb
      rw [← h.2] at hb
      cases hb
    · rw [if_neg hd] at h
      cases h
  · rw [if_neg hp] at h
    rw [IResult.done.injEq] at h
    intro b hb
    rw [← h.2] at hb
    exact List.mem_takeWhile_imp hb

theorem goodSeg_chars {s : Input} (h : goodSeg s = true) :
    ∀ b ∈ s, isAlnumB b = true := by
  cases s with
  | nil => cases h
  | cons c cs =>
    simp only [goodSeg, Bool.and_eq_true] at h
    intro b hb
    rcases List.mem_cons.mp hb with rfl | hb1
    · exact isAlphaB_isAlnumB h.1
    · exact List.all_eq_true.mp h.2 b hb1

theorem GoodPath_chars {e : Input} (h : GoodPath e) :
    ∀ b ∈ e, isAlnumB b = true ∨ b = 46 := by
  induction h with
  | single s hs =>
    intro b hb
    exact Or.inl (goodSeg_chars hs b hb)
  | dotted s t hs _ ih =>
    intro b hb
    rcases List.mem_append.mp hb with hbs | hbt
    · exact Or.inl (goodSeg_chars hs b hbs)
    · rcases List.mem_cons.mp hbt with rfl | hbt1
      · exact Or.inr rfl
      · exact ih b hbt1

theorem rust_name_done_seg {i r v : Input} (hne : i ≠ [])
    (h : rust_name i = .done r v) : goodSeg v = true := by
  obtain ⟨c, cs, rfl⟩ := List.exists_cons_of_ne_nil hne
  unfold rust_name at h
  obtain ⟨r1, first, ha, h⟩ := pbind_done h
  by_cases hc : isAlphaB c = true
  · unfold alpha at ha
    rw [spanFilter_cons_pos cs hc] at ha
    rw [IResult.done.injEq] at ha
    obtain ⟨hr1, hfirst⟩ := ha
    obtain ⟨o, ho, hv⟩ := pmap_done h
    have hoal : ∀ b ∈ o.getD [], isAlnumB b = true := by
      unfold popt at ho
      cases han : alphanumeric r1 with
      | done ra va =>
        rw [han] at ho
        rw [IResult.done.injEq] at ho
        rw [← ho.2]
        simpa using spanFilter_done_val han
      | error =>
        rw [han] at ho
        rw [IResult.done.injEq] at ho
        rw [← ho.2]
        intro b hb
        cases hb
      | incomplete =>
        rw [han] at ho
        cases ho
    subst hv
    rw [← hfirst, List.cons_append]
    simp only [goodSeg, Bool.and_eq_true]
    refine ⟨hc, List.all_eq_true.mpr ?_⟩
    intro b hb
    rcases List.mem_append.mp hb with hbt | hbo
    · exact isAlphaB_isAlnumB (List.mem_takeWhile_imp hbt)
    · exact hoal b hbo
  · unfold alpha at ha
    rw [spanFilter_cons_neg cs (Bool.not_eq_true _ ▸ hc)] at ha
    cases ha

theorem expressionF_done_good :
    ∀ {fuel : Nat} {i r s : Input}, expressionF fuel i = .done r s → GoodPath s := by
  intro fuel
  induction fuel with
  | zero =>
    intro i r s h
    cases h
  | succ fuel ih =>
    intro i r s h
    by_cases hi : i = []
    · subst hi
      rw [show expressionF (fuel + 1) [] = .incomplete from rfl] at h
      cases h
    · rw [expressionF] at h
      unfold palt at h
      cases hb1 : pbind rust_name (fun pre =>
          pbind (pchar 46) (fun _ =>
            pmap (expressionF fuel) (fun post => pre ++ 46 :: post))) i with
      | error =>
        rw [hb1] at h
        exact GoodPath.single s (rust_name_done_seg hi h)
      | incomplete =>
        rw [hb1] at h
        cases h
      | done r1 v1 =>
        rw [hb1] at h
        rw [IResult.done.injEq] at h
        obtain ⟨rfl, rfl⟩ := h
        obtain ⟨r2, pre, hrn, hb2⟩ := pbind_done hb1
        obtain ⟨r3, _, _, hb3⟩ := pbind_done hb2
        obtain ⟨post, hrec, hv⟩ := pmap_done hb3
        rw [hv]
        exact GoodPath.dotted pre post (rust_name_done_seg hi hrn) (ih hrec)

theorem template_expression_done_expr {i r : Input} {node : TemplateExpression}
    (h : template_expression i = .done r node) :
    ∀ e, node = .Expression e → GoodPath e := by
  unfold template_expression at h
  unfold palt at h
  cases h1 : pmap comment (fun _ => TemplateExpression.Comment) i with
  | done r1 v1 =>
    rw [h1] at h
    rw [IResult.done.injEq] at h
    obtain ⟨_, v2, hv⟩ := pmap_done h1
    intro e he
    rw [← h.2, hv] at he
    cases he
  | incomplete =>
    rw [h1] at h
    cases h
  | error =>
    rw [h1] at h
    cases h2 : pmap (isNot [64]) (fun t => TemplateExpression.Text t) i with
    | done r2 v2 =>
      rw [h2] at h
      rw [IResult.done.injEq] at h
      obtain ⟨_, v3, hv⟩ := pmap_done h2
      intro e he
      rw [← h.2, hv] at he
      cases he
    | incomplete =>
      rw [h2] at h
      cases h
    | error =>
      rw [h2] at h
      obtain ⟨r3, _, _, h⟩ := pbind_done h
      obtain ⟨e1, hexp, hv⟩ := pmap_done h
      intro e he
      rw [hv] at he
      cases he
      unfold expression at hexp
      exact expressionF_done_good hexp

theorem many0F_done_mem {α : Type} {p : Input → IResult α} :
    ∀ {fuel : Nat} {i r : Input} {os : List α}, many0F p fuel i = .done r os →
      ∀ o ∈ os, ∃ j r', p j = .done r' o := by
  intro fuel
  induction fuel with
  | zero =>
    intro i r os h
    cases h
  | succ fuel ih =>
    intro i r os h
    rw [many0F] at h
    by_cases hi : i = []
    · rw [if_pos hi] at h
      rw [IResult.done.injEq] at h
      intro o ho
      rw [← h.2] at ho
      cases ho
    · rw [if_neg hi] at h
      cases hp : p i with
      | error =>
        rw [hp] at h
        rw [IResult.done.injEq] at h
        intro o ho
        rw [← h.2] at ho
        cases ho
      | incomplete =>
        rw [hp] at h
        cases h
      | done r1 o1 =>
        rw [hp] at h
        dsimp only at h
        by_cases hl : r1.length = i.length
        · rw [if_pos hl] at h
          rw [IResult.done.injEq] at h
          intro o ho
          rw [← h.2] at ho
          cases ho
        · rw [if_neg hl] at h
          cases hm : many0F p fuel r1 with
          | done r2 os1 =>
            rw [hm] at h
            rw [IResult.done.injEq] at h
            intro o ho
            rw [← h.2] at ho
            rcases List.mem_cons.mp ho with rfl | ho1
            · exact ⟨i, r1, hp⟩
            · exact ih hm o ho1
          | error =>
            rw [hm] at h
            cases h
          | incomplete =>
            rw [hm] at h
            cases h

/-- Claim C10: in every successfully parsed template, each `Expression` body
node's path is a chain of dot-separated identifier segments (alphabetic
first byte, alphanumeric rest, single `.` separators), hence consists only
of alphanumeric bytes and dots, and the generated statement splices exactly
those bytes between the fixed `try!(` and `.to_html(out));` fragments. -/
theorem ructe_C10 (i r : Input) (t : Template) (h : template i = .done r t) :
    ∀ node ∈ t.body, ∀ e, node = TemplateExpression.Expression e →
      GoodPath e ∧ (∀ b ∈ e, isAlnumB b = true ∨ b = 46) ∧
      TemplateExpression.code (.Expression e) =
        bs ("try!(") ++ e ++ bs (".to_html(out));\n") := by
  unfold template at h
  obtain ⟨r1, _, _, h⟩ := pbind_done h
  obtain ⟨r2, _, _, h⟩ := pbind_done h
  obtain ⟨r3, _, _, h⟩ := pbind_done h
  obtain ⟨r4, _, _, h⟩ := pbind_done h
  obtain ⟨r5, _, _, h⟩ := pbind_done h
  obtain ⟨r6, _, _, h⟩ := pbind_done h
  obtain ⟨r7, body, hbody, h⟩ := pbind_done h
  obtain ⟨_, _, ht⟩ := pmap_done h
  intro node hnode e he
  have hmem : node ∈ body := by
    rw [ht] at hnode
    exact hnode
  unfold many0 at hbody
  obtain ⟨j, r', hte⟩ := many0F_done_mem hbody node hmem
  have hgp : GoodPath e := template_expression_done_expr hte e he
  exact ⟨hgp, GoodPath_chars hgp, rfl⟩

/-- Witness for C10: the expression `foo.bar` in a parsed template is a
well-formed dotted identifier chain. -/
theorem ructe_C10_witness : GoodPath (bs ("foo.bar")) :=
  (ructe_C10 (bs ("@()@foo.bar\n")) []
    { preamble := [], args := [],
      body := [.Expression (bs ("foo.bar")), .Text (bs ("\n"))] }
    (by decide)
    (.Expression (bs ("foo.bar"))) (by decide) (bs ("foo.bar")) rfl).1

theorem processNames_ok_iff (fs : FS) :
    ∀ (names : List Input) (out : List Chunk) (warns : List Input),
      (processNames fs names out warns).ok = true ↔
        ∀ n ∈ names, (fs.read n).isSome = true := by
  intro names
  induction names with
  | nil =>
    intro out warns
    simp [processNames]
  | cons n rest ih =>
    intro out warns
    cases hr : fs.read n with
    | none => simp [processNames, hr]
    | some buf =>
      cases ht : template buf with
      | done r t => simp [processNames, hr, ht, ih]
      | error => simp [processNames, hr, ht, ih]
      | incomplete => simp [processNames, hr, ht, ih]

theorem parsesOk_some_done {fs : FS} {n buf r : Input} {t : Template}
    (hr : fs.read n = some buf) (ht : template buf = .done r t) :
    parsesOk fs n = true := by
  simp [parsesOk, hr, ht]

theorem parsesOk_some_error {fs : FS} {n buf : Input}
    (hr : fs.read n = some buf) (ht : template buf = .error) :
    parsesOk fs n = false := by
  simp [parsesOk, hr, ht]

theorem parsesOk_some_incomplete {fs : FS} {n buf : Input}
    (hr : fs.read n = some buf) (ht : template buf = .incomplete) :
    parsesOk fs n = false := by
  simp [parsesOk, hr, ht]

theorem parsesOk_none {fs : FS} {n : Input} (hr : fs.read n = none) :
    parsesOk fs n = false := by
  simp [parsesOk, hr]

theorem renderChunks_cons_done {fs : FS} {n buf r : Input} {t : Template}
    (rest : List Input) (hr : fs.read n = some buf)
    (ht : template buf = .done r t) :
    renderChunks fs (n :: rest) =
      Chunk.renderDef (t.write_rust n) :: renderChunks fs rest := by
  simp [renderChunks, List.filterMap_cons, hr, ht]

theorem renderChunks_cons_skip {fs : FS} {n : Input} (rest : List Input)
    (hpo : parsesOk fs n = false) :
    renderChunks fs (n :: rest) = renderChunks fs rest := by
  unfold parsesOk at hpo
  cases hr : fs.read n with
  | none => simp [renderChunks, List.filterMap_cons, hr]
  | some buf =>
    rw [hr] at hpo
    dsimp only at hpo
    cases ht : template buf with
    | done r t => rw [ht] at hpo; simp at hpo
    | error => simp [renderChunks, List.filterMap_cons, hr, ht]
    | incomplete => simp [renderChunks, List.filterMap_cons, hr, ht]

theorem failedNames_cons_ok {fs : FS} {n : Input} (rest : List Input)
    (hpo : parsesOk fs n = true) :
    failedNames fs (n :: rest) = failedNames fs rest := by
  simp [failedNames, List.filter_cons, hpo]

theorem failedNames_cons_fail {fs : FS} {n : Input} (rest : List Input)
    (hpo : parsesOk fs n = false) :
    failedNames fs (n :: rest) = n :: failedNames fs rest := by
  simp [failedNames, List.filter_cons, hpo]

theorem countRender_cons_renderDef (s : Input) (l : List Chunk) :
    countRender (Chunk.renderDef s :: l) = countRender l + 1 := by
  simp [countRender, List.filter_cons]

theorem countSupport_cons_renderDef (s : Input) (l : List Chunk) :
    countSupport (Chunk.renderDef s :: l) = countSupport l := by
  simp [countSupport, List.filter_cons]

theorem processNames_spec (fs : FS) :
    ∀ (names : List Input) (out : List Chunk) (warns : List Input),
      (∀ n ∈ names, (fs.read n).isSome = true) →
      processNames fs names out warns =
        { ok := true,
          out := out ++ renderChunks fs names ++ [Chunk.support],
          warnings := warns ++ failedNames fs names } := by
  intro names
  induction names with
  | nil =>
    intro out warns _
    simp [processNames, renderChunks, failedNames]
  | cons n rest ih =>
    intro out warns hall
    have hn : (fs.read n).isSome = true := hall n (List.mem_cons_self n rest)
    have hrest : ∀ m ∈ rest, (fs.read m).isSome = true := by
      intro m hm
      exact hall m (List.mem_cons_of_mem n hm)
    cases hr : fs.read n with
    | none => rw [hr] at hn; cases hn
    | some buf =>
      cases ht : template buf with
      | done r t =>
        have hpo := parsesOk_some_done hr ht
        simp only [processNames, hr, ht]
        rw [ih _ _ hrest, renderChunks_cons_done rest hr ht,
          failedNames_cons_ok rest hpo]
        simp [List.append_assoc]
      | error =>
        have hpo := parsesOk_some_error hr ht
        simp only [processNames, hr, ht]
        rw [ih _ _ hrest, renderChunks_cons_skip rest hpo,
          failedNames_cons_fail rest hpo]
        simp [List.append_assoc]
      | incomplete =>
        have hpo := parsesOk_some_incomplete hr ht
        simp only [processNames, hr, ht]
        rw [ih _ _ hrest, renderChunks_cons_skip rest hpo,
          failedNames_cons_fail rest hpo]
        simp [List.append_assoc]

theorem countRender_append (a b : List Chunk) :
    countRender (a ++ b) = countRender a + countRender b := by
  simp [countRender, List.filter_append]

theorem countSupport_append (a b : List Chunk) :
    countSupport (a ++ b) = countSupport a + countSupport b := by
  simp [countSupport, List.filter_append]

theorem countRender_renderChunks (fs : FS) :
    ∀ names : List Input,
      countRender (renderChunks fs names) =
        (names.filter (fun n => parsesOk fs n)).length := by
  intro names
  induction names with
  | nil => simp [renderChunks, countRender]
  | cons n rest ih =>
    by_cases hpo : parsesOk fs n = true
    · have hr : ∃ buf, fs.read n = some buf := by
        unfold parsesOk at hpo
        cases hr : fs.read n with
        | none => rw [hr] at hpo; cases hpo
        | some buf => exact ⟨buf, rfl⟩
      obtain ⟨buf, hr⟩ := hr
      have ht : ∃ r t, template buf = .done r t := by
        unfold parsesOk at hpo
        rw [hr] at hpo
        dsimp only at hpo
        cases ht : template buf with
        | done r t => exact ⟨r, t, rfl⟩
        | error => rw [ht] at hpo; simp at hpo
        | incomplete => rw [ht] at hpo; simp at hpo
      obtain ⟨r, t, ht⟩ := ht
      rw [renderChunks_cons_done rest hr ht, countRender_cons_renderDef,
        ih, List.filter_cons]
      simp [hpo]
    · have hpo2 : parsesOk fs n = false := by
        cases hb : parsesOk fs n
        · rfl
        · exact absurd hb hpo
      rw [renderChunks_cons_skip rest hpo2, ih, List.filter_cons]
      simp [hpo2]

theorem countSupport_renderChunks (fs : FS) :
    ∀ names : List Input, countSupport (renderChunks fs names) = 0 := by
  intro names
  induction names with
  | nil => simp [renderChunks, countSupport]
  | cons n rest ih =>
    by_cases hpo : parsesOk fs n = true
    · have hr : ∃ buf, fs.read n = some buf := by
        unfold parsesOk at hpo
        cases hr : fs.read n with
        | none => rw [hr] at hpo; cases hpo
        | some buf => exact ⟨buf, rfl⟩
      obtain ⟨buf, hr⟩ := hr
      have ht : ∃ r t, template buf = .done r t := by
        unfold parsesOk at hpo
        rw [hr] at hpo
        dsimp only at hpo
        cases ht : template buf with
        | done r t => exact ⟨r, t, rfl⟩
        | error => rw [ht] at hpo; simp at hpo
        | incomplete => rw [ht] at hpo; simp at hpo
      obtain ⟨r, t, ht⟩ := ht
      rw [renderChunks_cons_done rest hr ht, countSupport_cons_renderDef, ih]
    · have hpo2 : parsesOk fs n = false := by
        cases hb : parsesOk fs n
        · rfl
        · exact absurd hb hpo
      rw [renderChunks_cons_skip rest hpo2, ih]

theorem filter_length_split {α : Type} (p : α → Bool) :
    ∀ l : List α,
      (l.filter p).length + (l.filter (fun x => !p x)).length = l.length := by
  intro l
  induction l with
  | nil => simp
  | cons a l ih =>
    by_cases hp : p a = true <;> simp [List.filter_cons, hp, ← ih] <;> omega

theorem parsesOk_length_split (fs : FS) (names : List Input) :
    (names.filter (fun n => parsesOk fs n)).length
      + (failedNames fs names).length = names.length := by
  have h := filter_length_split (fun n => parsesOk fs n) names
  simpa [failedNames] using h

/-- Claim C2: a batch run succeeds exactly when the filesystem cooperates
(output creatable and writable, every input readable) — template parse
failures never fail the batch — and a successful run over N names of which M
fail to parse writes exactly N−M render-function definitions and exactly one
runtime-support block (even when zero templates succeed), logging exactly M
warnings. -/
theorem ructe_C2 (fs : FS) (names : List Input) :
    ((compile_templates fs names).ok = true ↔
      (fs.createOk = true ∧ fs.writeOk = true ∧
        ∀ n ∈ names, (fs.read n).isSome = true)) ∧
    (fs.createOk = true → fs.writeOk = true →
      (∀ n ∈ names, (fs.read n).isSome = true) →
        countRender (compile_templates fs names).out
            = names.length - (failedNames fs names).length ∧
        countSupport (compile_templates fs names).out = 1 ∧
        (compile_templates fs names).warnings.length
            = (failedNames fs names).length) := by
  constructor
  · unfold compile_templates
    by_cases hc : fs.createOk = true
    · by_cases hw : fs.writeOk = true
      · rw [if_pos hc, if_pos hw, processNames_ok_iff]
        simp [hc, hw]
      · rw [if_pos hc, if_neg hw]
        simp [hw]
    · rw [if_neg hc]
      simp [hc]
  · intro hc hw hall
    unfold compile_templates
    rw [if_pos hc, if_pos hw, processNames_spec fs names _ _ hall]
    have hsplit := parsesOk_length_split fs names
    refine ⟨?_, ?_, ?_⟩
    · show countRender ([Chunk.header] ++ renderChunks fs names ++ [Chunk.support])
        = names.length - (failedNames fs names).length
      rw [countRender_append, countRender_append, countRender_renderChunks]
      have h0 : countRender [Chunk.header] = 0 := rfl
      have h1 : countRender [Chunk.support] = 0 := rfl
      rw [h0, h1]
      omega
    · show countSupport ([Chunk.header] ++ renderChunks fs names ++ [Chunk.support]) = 1
      rw [countSupport_append, countSupport_append, countSupport_renderChunks]
      rfl
    · show ([] ++ failedNames fs names).length = (failedNames fs names).length
      rw [List.nil_append]

/-- Witness for C2: a concrete run over two templates, one parseable and one
not, succeeds with the claimed counts. -/
theorem ructe_C2_witness :
    (compile_templates fs0 names0).ok = true ∧
    (countRender (compile_templates fs0 names0).out
        = names0.length - (failedNames fs0 names0).length ∧
      countSupport (compile_templates fs0 names0).out = 1 ∧
      (compile_templates fs0 names0).warnings.length
        = (failedNames fs0 names0).length) :=
  ⟨(ructe_C2 fs0 names0).1.mpr ⟨rfl, rfl, by decide⟩,
    (ructe_C2 fs0 names0).2 rfl rfl (by decide)⟩
